import Mathlib

/-!
Verification of the xVault contracts (cw-vault and Index-vault) against their
natural-language specification.

The Rust sources are shallowly embedded:
* `Uint128` values become `Nat` together with the explicit bound `U128LIMIT = 2 ^ 128`;
  the checked operations (`checked_mul`, `checked_div`) return `Except`, and the
  panicking `+` / `+=` / `-` / `-=` of `cosmwasm_std::Uint128` are modelled by
  `addU` / `subU` returning `Except` as well, since a panic traps the wasm
  execution and the host surfaces it as a failed (rolled-back) call.
* The persistent storage (`TOTAL_SUPPLY : Item<Uint128>`,
  `BALANCE_OF : Map<Addr, Uint128>`) becomes `VaultState`, with the map embedded
  as an association list; `Map::load` on an absent key fails with a not-found
  error while `load(..).unwrap_or(zero)` reads the default 0.
* External queries (the cw20 balance query and the wasmswap price query) are
  results provided by an environment record; `none` models a failing query.
* Each execute entry point is translated twice: a `..._raw` version that returns
  the result together with the ordered list of storage writes it performed
  before returning or failing, and the committed version that applies the
  CosmWasm transaction semantics (writes take effect only when the call returns
  Ok; on error the host rolls every write back).
-/

namespace XVault

/-- Uint128 overflow bound: values live in `[0, 2 ^ 128)`. -/
def U128LIMIT : Nat := 2 ^ 128

/-- Error outcomes of the embedded contract calls.  `insufficientShares` is the
dedicated variant of the crate error type (`crate::error::ContractError`)
named by the spec; the translated code paths never construct it. -/
inductive VaultError
  | overflow
  | divideByZero
  | panicOverflow
  | panicUnderflow
  | queryError
  | notFound
  | insufficientShares
deriving DecidableEq

/-- Embedding of `Uint128::checked_mul` (error mapped through `StdError::overflow`). -/
def checked_mul (a b : Nat) : Except VaultError Nat :=
  if a * b < U128LIMIT then .ok (a * b) else .error .overflow

/-- Embedding of `Uint128::checked_div` (error mapped through `StdError::divide_by_zero`). -/
def checked_div (a b : Nat) : Except VaultError Nat :=
  if b = 0 then .error .divideByZero else .ok (a / b)

/-- Embedding of the panicking `Uint128` addition (`+` / `+=`): a trap aborts
the call, which the host reports as a failure. -/
def addU (a b : Nat) : Except VaultError Nat :=
  if a + b < U128LIMIT then .ok (a + b) else .error .panicOverflow

/-- Embedding of the panicking `Uint128` subtraction (`-` / `-=`). -/
def subU (a b : Nat) : Except VaultError Nat :=
  if b ≤ a then .ok (a - b) else .error .panicUnderflow

/-- The `BALANCE_OF` map, embedded as an association list from holder address
to share balance. -/
abbrev Ledger := List (String × Nat)

/-- Read of a map entry: first matching key, `none` when absent. -/
def ledgerGet (l : Ledger) (k : String) : Option Nat :=
  match l with
  | [] => none
  | (k0, v0) :: t => if k0 = k then some v0 else ledgerGet t k

/-- Write of a map entry (`Map::save`): overwrite the first matching key, or
append the entry when the key is absent. -/
def ledgerSet (l : Ledger) (k : String) (v : Nat) : Ledger :=
  match l with
  | [] => [(k, v)]
  | (k0, v0) :: t => if k0 = k then (k, v) :: t else (k0, v0) :: ledgerSet t k v

/-- Sum of all stored share balances. -/
def sumLedger (l : Ledger) : Nat :=
  match l with
  | [] => 0
  | (_, v0) :: t => v0 + sumLedger t

/-- The persistent contract state: `TOTAL_SUPPLY` and `BALANCE_OF`. -/
structure VaultState where
  totalSupply : Nat
  ledger : Ledger
deriving DecidableEq

/-- State written by `instantiate`: `TOTAL_SUPPLY = 0` and no ledger entries
(src/cw-vault/src/contract.rs:39, src/Index-vault/src/contract.rs:64). -/
def instantiateState : VaultState := ⟨0, []⟩

/-- The `Config` item saved at instantiation. -/
structure Config where
  token : String
  owner : String
deriving DecidableEq

/-- The `TokenSelect` argument of the wasmswap `Swap` message. -/
inductive TokenSelect
  | token1
  | token2
deriving DecidableEq

/-- External-call instructions emitted in the `Response` (the `expires` and
`expiration` fields are always `None` in the source and are omitted). -/
inductive Instr
  | transferFrom (token owner recipient : String) (amount : Nat)
  | transfer (token recipient : String) (amount : Nat)
  | increaseAllowance (token spender : String) (amount : Nat)
  | swap (pool : String) (input_token : TokenSelect) (input_amount min_output : Nat)
deriving DecidableEq

/-- A single storage write performed by an execute call. -/
inductive WriteEvent
  | setSupply (v : Nat)
  | setBalance (k : String) (v : Nat)
deriving DecidableEq

/-- Apply one storage write to the state. -/
def applyWrite (s : VaultState) : WriteEvent → VaultState
  | .setSupply v => ⟨v, s.ledger⟩
  | .setBalance k v => ⟨s.totalSupply, ledgerSet s.ledger k v⟩

/-- Apply a list of storage writes in order. -/
def applyWrites (s : VaultState) (ws : List WriteEvent) : VaultState :=
  ws.foldl applyWrite s

/-- CosmWasm transaction semantics: the writes of an execute call are committed
only when the call returns Ok; on error the host rolls back every write and no
instruction is dispatched. -/
def commit (s : VaultState) (r : Except VaultError (List Instr) × List WriteEvent) :
    VaultState × List Instr :=
  match r with
  | (.ok msgs, ws) => (applyWrites s ws, msgs)
  | (.error _, _) => (s, [])

/-- Atomicity of one raw execute outcome `r` for caller `sender` on pre-state
`s`: either the call succeeded, its storage writes are exactly the supply write
followed by the single balance write of the sender (both committed), and a
non-empty instruction list is returned, or the call failed and the committed
state is exactly the pre-state with no instruction. -/
def atomicOutcome (s : VaultState) (sender : String)
    (r : Except VaultError (List Instr) × List WriteEvent) : Prop :=
  (∃ msgs a b, r = (.ok msgs, [.setSupply a, .setBalance sender b]) ∧ msgs ≠ [] ∧
     commit s r = (applyWrite (applyWrite s (.setSupply a)) (.setBalance sender b), msgs))
  ∨ (∃ e ws, r = (.error e, ws) ∧ commit s r = (s, []))

namespace CwVault

/-- Environment of a cw-vault execute call: the address of the vault contract
(`env.contract.address`) and the result of the cw20 `Balance` query
`get_token_balance_of(deps, env.contract.address, config.token)`
(src/cw-vault/src/contract.rs:149-161); `none` models a failing query. -/
structure Env where
  contractAddr : String
  tokenBalance : Option Nat
deriving DecidableEq

/-- Shallow embedding of cw-vault `execute_deposit`
(src/cw-vault/src/contract.rs:57-104), returning the call result together with
the ordered storage writes performed before returning or failing:
load `TOTAL_SUPPLY` and the sender balance (absent read as zero, line 66-68),
query the vault token balance (line 70-71), bootstrap or proportional share
pricing (line 73-81), save the increased supply (line 83-84), then the
increased balance (line 85-87), and emit the `TransferFrom` pulling `amount`
from the sender to the vault (line 89-103). -/
def execute_deposit_raw (cfg : Config) (env : Env) (s : VaultState)
    (sender : String) (amount : Nat) :
    Except VaultError (List Instr) × List WriteEvent :=
  let total_supply := s.totalSupply
  let balance := (ledgerGet s.ledger sender).getD 0
  match env.tokenBalance with
  | none => (.error .queryError, [])
  | some balance_contract =>
    let sharesE : Except VaultError Nat :=
      if total_supply = 0 then .ok amount
      else
        match checked_mul amount total_supply with
        | .error e => .error e
        | .ok m => checked_div m balance_contract
    match sharesE with
    | .error e => (.error e, [])
    | .ok shares =>
      match addU total_supply shares with
      | .error e => (.error e, [])
      | .ok total_supply' =>
        match addU balance shares with
        | .error e => (.error e, [.setSupply total_supply'])
        | .ok balance' =>
          (.ok [.transferFrom cfg.token sender env.contractAddr amount],
           [.setSupply total_supply', .setBalance sender balance'])

/-- The committed outcome of cw-vault `execute_deposit`: on Ok the performed
writes are applied, on error the host rolls them back. -/
def execute_deposit (cfg : Config) (env : Env) (s : VaultState)
    (sender : String) (amount : Nat) :
    Except VaultError (VaultState × List Instr) :=
  match execute_deposit_raw cfg env s sender amount with
  | (.ok msgs, ws) => .ok (applyWrites s ws, msgs)
  | (.error e, _) => .error e

/-- Shallow embedding of cw-vault `execute_withdraw`
(src/cw-vault/src/contract.rs:106-147):
load `TOTAL_SUPPLY` and the sender balance (absent read as zero, line 115-119),
query the vault token balance (line 121), compute
`amount = share * token_bal / total_supply` with checked multiply and divide
(line 123-127), subtract `share` from the supply with the panicking `-=` and
save (line 129-130), subtract `share` from the balance likewise and save
(line 131-132), and emit the `Transfer` of `amount` to the sender
(line 134-146). -/
def execute_withdraw_raw (cfg : Config) (env : Env) (s : VaultState)
    (sender : String) (share : Nat) :
    Except VaultError (List Instr) × List WriteEvent :=
  let total_supply := s.totalSupply
  let balance := (ledgerGet s.ledger sender).getD 0
  match env.tokenBalance with
  | none => (.error .queryError, [])
  | some token_bal =>
    match checked_mul share token_bal with
    | .error e => (.error e, [])
    | .ok m =>
      match checked_div m total_supply with
      | .error e => (.error e, [])
      | .ok amount =>
        match subU total_supply share with
        | .error e => (.error e, [])
        | .ok total_supply' =>
          match subU balance share with
          | .error e => (.error e, [.setSupply total_supply'])
          | .ok balance' =>
            (.ok [.transfer cfg.token sender amount],
             [.setSupply total_supply', .setBalance sender balance'])

/-- The committed outcome of cw-vault `execute_withdraw`. -/
def execute_withdraw (cfg : Config) (env : Env) (s : VaultState)
    (sender : String) (share : Nat) :
    Except VaultError (VaultState × List Instr) :=
  match execute_withdraw_raw cfg env s sender share with
  | (.ok msgs, ws) => .ok (applyWrites s ws, msgs)
  | (.error e, _) => .error e

/-- Shallow embedding of cw-vault `get_balance_of`
(src/cw-vault/src/contract.rs:177-181): `BALANCE_OF.load(storage, address)?`
fails with a not-found error when the key is absent. -/
def get_balance_of (s : VaultState) (address : String) : Except VaultError Nat :=
  match ledgerGet s.ledger address with
  | none => .error .notFound
  | some balance => .ok balance

/-- One inbound execute request, together with the external query results the
host would deliver during that call. -/
inductive Op
  | deposit (env : Env) (sender : String) (amount : Nat)
  | withdraw (env : Env) (sender : String) (share : Nat)

/-- Dispatch of `ExecuteMsg` (src/cw-vault/src/contract.rs:44-55). -/
def execOp (cfg : Config) (s : VaultState) : Op → Except VaultError (VaultState × List Instr)
  | .deposit env sender amount => execute_deposit cfg env s sender amount
  | .withdraw env sender share => execute_withdraw cfg env s sender share

/-- Run a sequence of execute requests, failing as soon as one of them fails. -/
def execOps (cfg : Config) (s : VaultState) : List Op → Except VaultError VaultState
  | [] => .ok s
  | op :: rest =>
    match execOp cfg s op with
    | .error e => .error e
    | .ok (s', _) => execOps cfg s' rest

end CwVault

namespace IndexVault

/-- The `Swapvar` item of the Index-vault (routing table): the two wasmswap
pools and their receipt tokens (src/Index-vault/src/contract.rs:56-63). -/
structure Swapvar where
  lp_pool_1 : String
  rec_token_1 : String
  lp_pool_2 : String
  rec_token_2 : String
deriving DecidableEq

/-- Environment of an Index-vault execute call: the vault address and the
results the external collaborators would return during the call —
the cw20 balance of the vault in the underlying token, in each receipt token
(src/Index-vault/src/contract.rs:304-316), and the wasmswap
`Token2ForToken1Price` conversion of a given receipt amount on each pool
(src/Index-vault/src/contract.rs:318-331); `none` models a failing query. -/
structure Env where
  contractAddr : String
  tokenBalance : Option Nat
  recToken1Bal : Option Nat
  recToken2Bal : Option Nat
  conv1 : Nat → Option Nat
  conv2 : Nat → Option Nat

/-- Shallow embedding of Index-vault `execute_deposit`
(src/Index-vault/src/contract.rs:82-175).  The share accounting (lines 88-112)
is identical to the cw-vault deposit; the emitted instructions (lines 114-174)
are: increase-allowance of `amount` on the underlying for each pool, the
`TransferFrom` pulling `amount` from the sender, then one `Swap` per pool of
`amount / 2` (`ratio = Uint128::new(2)`, checked division, line 129-158) with
`TokenSelect::Token1` on both pools and `min_output = 0`. -/
def execute_deposit_raw (cfg : Config) (sv : Swapvar) (env : Env) (s : VaultState)
    (sender : String) (amount : Nat) :
    Except VaultError (List Instr) × List WriteEvent :=
  let total_supply := s.totalSupply
  let balance := (ledgerGet s.ledger sender).getD 0
  match env.tokenBalance with
  | none => (.error .queryError, [])
  | some balance_contract =>
    let sharesE : Except VaultError Nat :=
      if total_supply = 0 then .ok amount
      else
        match checked_mul amount total_supply with
        | .error e => .error e
        | .ok m => checked_div m balance_contract
    match sharesE with
    | .error e => (.error e, [])
    | .ok shares =>
      match addU total_supply shares with
      | .error e => (.error e, [])
      | .ok total_supply' =>
        match addU balance shares with
        | .error e => (.error e, [.setSupply total_supply'])
        | .ok balance' =>
          match checked_div amount 2 with
          | .error e => (.error e, [.setSupply total_supply', .setBalance sender balance'])
          | .ok half =>
            (.ok [.increaseAllowance cfg.token sv.lp_pool_1 amount,
                  .increaseAllowance cfg.token sv.lp_pool_2 amount,
                  .transferFrom cfg.token sender env.contractAddr amount,
                  .swap sv.lp_pool_1 .token1 half 0,
                  .swap sv.lp_pool_2 .token1 half 0],
             [.setSupply total_supply', .setBalance sender balance'])

/-- The committed outcome of Index-vault `execute_deposit`. -/
def execute_deposit (cfg : Config) (sv : Swapvar) (env : Env) (s : VaultState)
    (sender : String) (amount : Nat) :
    Except VaultError (VaultState × List Instr) :=
  match execute_deposit_raw cfg sv env s sender amount with
  | (.ok msgs, ws) => .ok (applyWrites s ws, msgs)
  | (.error e, _) => .error e

/-- Shallow embedding of Index-vault `execute_withdraw`
(src/Index-vault/src/contract.rs:177-282):
load supply and sender balance (absent read as zero), query the vault balance
of each receipt token (lines 194-201), convert each through its pool
(lines 203-205), `token_bal = am1 + am2` with the panicking `+` (line 207),
`amount = share * token_bal / total_supply` checked (lines 209-213), subtract
`share` from supply and balance with the panicking `-=` and save (lines
215-218), and emit, in order: increase-allowance of each full receipt balance
to its pool, a `Swap` of each full receipt balance (`Token1` on pool 1,
`Token2` on pool 2, `min_output = 0`), and last the `Transfer` of `amount` to
the sender (lines 220-281). -/
def execute_withdraw_raw (cfg : Config) (sv : Swapvar) (env : Env) (s : VaultState)
    (sender : String) (share : Nat) :
    Except VaultError (List Instr) × List WriteEvent :=
  let total_supply := s.totalSupply
  let balance := (ledgerGet s.ledger sender).getD 0
  match env.recToken1Bal with
  | none => (.error .queryError, [])
  | some token_1_bal =>
    match env.recToken2Bal with
    | none => (.error .queryError, [])
    | some token_2_bal =>
      match env.conv1 token_1_bal with
      | none => (.error .queryError, [])
      | some am1 =>
        match env.conv2 token_2_bal with
        | none => (.error .queryError, [])
        | some am2 =>
          match addU am1 am2 with
          | .error e => (.error e, [])
          | .ok token_bal =>
            match checked_mul share token_bal with
            | .error e => (.error e, [])
            | .ok m =>
              match checked_div m total_supply with
              | .error e => (.error e, [])
              | .ok amount =>
                match subU total_supply share with
                | .error e => (.error e, [])
                | .ok total_supply' =>
                  match subU balance share with
                  | .error e => (.error e, [.setSupply total_supply'])
                  | .ok balance' =>
                    (.ok [.increaseAllowance sv.rec_token_1 sv.lp_pool_1 token_1_bal,
                          .increaseAllowance sv.rec_token_2 sv.lp_pool_2 token_2_bal,
                          .swap sv.lp_pool_1 .token1 token_1_bal 0,
                          .swap sv.lp_pool_2 .token2 token_2_bal 0,
                          .transfer cfg.token sender amount],
                     [.setSupply total_supply', .setBalance sender balance'])

/-- The committed outcome of Index-vault `execute_withdraw`. -/
def execute_withdraw (cfg : Config) (sv : Swapvar) (env : Env) (s : VaultState)
    (sender : String) (share : Nat) :
    Except VaultError (VaultState × List Instr) :=
  match execute_withdraw_raw cfg sv env s sender share with
  | (.ok msgs, ws) => .ok (applyWrites s ws, msgs)
  | (.error e, _) => .error e

end IndexVault

/-- The bootstrap-or-proportional share pricing applied by both deposits
(src/cw-vault/src/contract.rs:73-81): `amount` itself when the supply is zero,
otherwise the floor of `amount * total_supply / v`. -/
def pricedShares (total_supply v amount : Nat) : Nat :=
  if total_supply = 0 then amount else amount * total_supply / v

theorem addU_ok {a b c : Nat} (h : addU a b = .ok c) : c = a + b ∧ a + b < U128LIMIT := by
  unfold addU at h
  split at h
  · exact ⟨(Except.ok.injEq _ _).mp h |>.symm, by assumption⟩
  · cases h

theorem subU_ok {a b c : Nat} (h : subU a b = .ok c) : c = a - b ∧ b ≤ a := by
  unfold subU at h
  split at h
  · exact ⟨(Except.ok.injEq _ _).mp h |>.symm, by assumption⟩
  · cases h

theorem checked_mul_ok {a b c : Nat} (h : checked_mul a b = .ok c) :
    c = a * b ∧ a * b < U128LIMIT := by
  unfold checked_mul at h
  split at h
  · exact ⟨(Except.ok.injEq _ _).mp h |>.symm, by assumption⟩
  · cases h

theorem checked_div_ok {a b c : Nat} (h : checked_div a b = .ok c) :
    c = a / b ∧ b ≠ 0 := by
  unfold checked_div at h
  split at h
  · cases h
  · exact ⟨(Except.ok.injEq _ _).mp h |>.symm, by assumption⟩

theorem sumLedger_ledgerSet (l : Ledger) (k : String) (v : Nat) :
    sumLedger (ledgerSet l k v) + (ledgerGet l k).getD 0 = sumLedger l + v := by
  induction l with
  | nil => simp [ledgerSet, ledgerGet, sumLedger]
  | cons hd t ih =>
    obtain ⟨k0, v0⟩ := hd
    by_cases hk : k0 = k
    · simp [ledgerSet, ledgerGet, sumLedger, hk]
      omega
    · simp [ledgerSet, ledgerGet, sumLedger, hk]
      omega

theorem ledgerGet_ledgerSet_self (l : Ledger) (k : String) (v : Nat) :
    ledgerGet (ledgerSet l k v) k = some v := by
  induction l with
  | nil => simp [ledgerSet, ledgerGet]
  | cons hd t ih =>
    obtain ⟨k0, v0⟩ := hd
    by_cases hk : k0 = k
    · simp [ledgerSet, ledgerGet, hk]
    · simp [ledgerSet, ledgerGet, hk, ih]

theorem cw_deposit_ok (cfg : Config) (env : CwVault.Env) (s : VaultState)
    (sender : String) (amount V : Nat)
    (hq : env.tokenBalance = some V)
    (hV : s.totalSupply = 0 ∨ V ≠ 0)
    (hmul : amount * s.totalSupply < U128LIMIT)
    (ht : s.totalSupply + pricedShares s.totalSupply V amount < U128LIMIT)
    (hb : (ledgerGet s.ledger sender).getD 0 + pricedShares s.totalSupply V amount < U128LIMIT) :
    CwVault.execute_deposit cfg env s sender amount =
      .ok (⟨s.totalSupply + pricedShares s.totalSupply V amount,
            ledgerSet s.ledger sender
              ((ledgerGet s.ledger sender).getD 0 + pricedShares s.totalSupply V amount)⟩,
           [.transferFrom cfg.token sender env.contractAddr amount]) := by
  unfold CwVault.execute_deposit CwVault.execute_deposit_raw
  rw [hq]
  by_cases h0 : s.totalSupply = 0
  · simp only [pricedShares, if_pos h0] at ht hb ⊢
    simp only [h0, Nat.zero_add] at ht
    simp [h0, addU, ht, hb, applyWrites, applyWrite]
  · have hV0 : V ≠ 0 := hV.resolve_left h0
    simp only [pricedShares, if_neg h0] at ht hb ⊢
    simp [h0, checked_mul, hmul, checked_div, hV0, addU, ht, hb, applyWrites, applyWrite]

theorem cw_deposit_inv (cfg : Config) (env : CwVault.Env) (s : VaultState)
    (sender : String) (amount : Nat) (s' : VaultState) (msgs : List Instr)
    (h : CwVault.execute_deposit cfg env s sender amount = .ok (s', msgs)) :
    ∃ V, env.tokenBalance = some V ∧
      s' = ⟨s.totalSupply + pricedShares s.totalSupply V amount,
            ledgerSet s.ledger sender
              ((ledgerGet s.ledger sender).getD 0 + pricedShares s.totalSupply V amount)⟩ ∧
      msgs = [.transferFrom cfg.token sender env.contractAddr amount] := by
  unfold CwVault.execute_deposit CwVault.execute_deposit_raw at h
  cases hq : env.tokenBalance with
  | none => simp only [hq] at h; simp at h
  | some V =>
    rw [hq] at h
    refine ⟨V, rfl, ?_⟩
    by_cases h0 : s.totalSupply = 0
    · simp only [if_pos h0] at h
      cases ha : addU s.totalSupply amount with
      | error e => simp only [ha] at h; simp at h
      | ok ts1 =>
        simp only [ha] at h
        cases hb2 : addU ((ledgerGet s.ledger sender).getD 0) amount with
        | error e => simp only [hb2] at h; simp at h
        | ok b1 =>
          simp only [hb2] at h
          simp only [applyWrites, applyWrite, List.foldl, Except.ok.injEq, Prod.mk.injEq] at h
          obtain ⟨hts1, _⟩ := addU_ok ha
          obtain ⟨hb1, _⟩ := addU_ok hb2
          obtain ⟨hs', hm⟩ := h
          subst hts1 hb1
          simp [pricedShares, h0, ← hs', hm]
    · simp only [if_neg h0] at h
      cases hm2 : checked_mul amount s.totalSupply with
      | error e => simp only [hm2] at h; simp at h
      | ok m2 =>
        simp only [hm2] at h
        cases hd2 : checked_div m2 V with
        | error e => simp only [hd2] at h; simp at h
        | ok shares =>
          simp only [hd2] at h
          cases ha : addU s.totalSupply shares with
          | error e => simp only [ha] at h; simp at h
          | ok ts1 =>
            simp only [ha] at h
            cases hb2 : addU ((ledgerGet s.ledger sender).getD 0) shares with
            | error e => simp only [hb2] at h; simp at h
            | ok b1 =>
              simp only [hb2] at h
              simp only [applyWrites, applyWrite, List.foldl, Except.ok.injEq, Prod.mk.injEq] at h
              obtain ⟨hmv, _⟩ := checked_mul_ok hm2
              obtain ⟨hdv, _⟩ := checked_div_ok hd2
              obtain ⟨hts1, _⟩ := addU_ok ha
              obtain ⟨hb1, _⟩ := addU_ok hb2
              obtain ⟨hs', hmsg⟩ := h
              subst hts1 hb1 hmv hdv
              simp [pricedShares, h0, ← hs', hmsg]

theorem cw_withdraw_ok (cfg : Config) (env : CwVault.Env) (s : VaultState)
    (sender : String) (share V : Nat)
    (hq : env.tokenBalance = some V)
    (hmul : share * V < U128LIMIT)
    (h0 : s.totalSupply ≠ 0)
    (hts : share ≤ s.totalSupply)
    (hbal : share ≤ (ledgerGet s.ledger sender).getD 0) :
    CwVault.execute_withdraw cfg env s sender share =
      .ok (⟨s.totalSupply - share,
            ledgerSet s.ledger sender ((ledgerGet s.ledger sender).getD 0 - share)⟩,
           [.transfer cfg.token sender (share * V / s.totalSupply)]) := by
  unfold CwVault.execute_withdraw CwVault.execute_withdraw_raw
  rw [hq]
  simp [checked_mul, hmul, checked_div, h0, subU, hts, hbal, applyWrites, applyWrite]

theorem cw_withdraw_inv (cfg : Config) (env : CwVault.Env) (s : VaultState)
    (sender : String) (share : Nat) (s' : VaultState) (msgs : List Instr)
    (h : CwVault.execute_withdraw cfg env s sender share = .ok (s', msgs)) :
    ∃ V, env.tokenBalance = some V ∧ s.totalSupply ≠ 0 ∧
      share ≤ s.totalSupply ∧ share ≤ (ledgerGet s.ledger sender).getD 0 ∧
      s' = ⟨s.totalSupply - share,
            ledgerSet s.ledger sender ((ledgerGet s.ledger sender).getD 0 - share)⟩ ∧
      msgs = [.transfer cfg.token sender (share * V / s.totalSupply)] := by
  unfold CwVault.execute_withdraw CwVault.execute_withdraw_raw at h
  cases hq : env.tokenBalance with
  | none => simp only [hq] at h; simp at h
  | some V =>
    rw [hq] at h
    refine ⟨V, rfl, ?_⟩
    cases hm2 : checked_mul share V with
    | error e => simp only [hm2] at h; simp at h
    | ok m2 =>
      simp only [hm2] at h
      cases hd2 : checked_div m2 s.totalSupply with
      | error e => simp only [hd2] at h; simp at h
      | ok amount =>
        simp only [hd2] at h
        cases hsub1 : subU s.totalSupply share with
        | error e => simp only [hsub1] at h; simp at h
        | ok ts1 =>
          simp only [hsub1] at h
          cases hsub2 : subU ((ledgerGet s.ledger sender).getD 0) share with
          | error e => simp only [hsub2] at h; simp at h
          | ok b1 =>
            simp only [hsub2] at h
            simp only [applyWrites, applyWrite, List.foldl, Except.ok.injEq, Prod.mk.injEq] at h
            obtain ⟨hmv, _⟩ := checked_mul_ok hm2
            obtain ⟨hdv, hne⟩ := checked_div_ok hd2
            obtain ⟨hts1, hle1⟩ := subU_ok hsub1
            obtain ⟨hb1, hle2⟩ := subU_ok hsub2
            obtain ⟨hs', hmsg⟩ := h
            subst hts1 hb1 hmv hdv
            exact ⟨hne, hle1, hle2, hs'.symm, hmsg.symm⟩

theorem ix_deposit_ok (cfg : Config) (sv : IndexVault.Swapvar) (env : IndexVault.Env)
    (s : VaultState) (sender : String) (amount V : Nat)
    (hq : env.tokenBalance = some V)
    (hV : s.totalSupply = 0 ∨ V ≠ 0)
    (hmul : amount * s.totalSupply < U128LIMIT)
    (ht : s.totalSupply + pricedShares s.totalSupply V amount < U128LIMIT)
    (hb : (ledgerGet s.ledger sender).getD 0 + pricedShares s.totalSupply V amount < U128LIMIT) :
    IndexVault.execute_deposit cfg sv env s sender amount =
      .ok (⟨s.totalSupply + pricedShares s.totalSupply V amount,
            ledgerSet s.ledger sender
              ((ledgerGet s.ledger sender).getD 0 + pricedShares s.totalSupply V amount)⟩,
           [.increaseAllowance cfg.token sv.lp_pool_1 amount,
            .increaseAllowance cfg.token sv.lp_pool_2 amount,
            .transferFrom cfg.token sender env.contractAddr amount,
            .swap sv.lp_pool_1 .token1 (amount / 2) 0,
            .swap sv.lp_pool_2 .token1 (amount / 2) 0]) := by
  unfold IndexVault.execute_deposit IndexVault.execute_deposit_raw
  rw [hq]
  by_cases h0 : s.totalSupply = 0
  · simp only [pricedShares, if_pos h0] at ht hb ⊢
    simp only [h0, Nat.zero_add] at ht
    simp [h0, addU, ht, hb, checked_div, applyWrites, applyWrite]
  · have hV0 : V ≠ 0 := hV.resolve_left h0
    simp only [pricedShares, if_neg h0] at ht hb ⊢
    simp [h0, checked_mul, hmul, checked_div, hV0, addU, ht, hb, applyWrites, applyWrite]

theorem ix_deposit_inv (cfg : Config) (sv : IndexVault.Swapvar) (env : IndexVault.Env)
    (s : VaultState) (sender : String) (amount : Nat) (s' : VaultState) (msgs : List Instr)
    (h : IndexVault.execute_deposit cfg sv env s sender amount = .ok (s', msgs)) :
    ∃ V, env.tokenBalance = some V ∧
      s' = ⟨s.totalSupply + pricedShares s.totalSupply V amount,
            ledgerSet s.ledger sender
              ((ledgerGet s.ledger sender).getD 0 + pricedShares s.totalSupply V amount)⟩ := by
  unfold IndexVault.execute_deposit IndexVault.execute_deposit_raw at h
  cases hq : env.tokenBalance with
  | none => simp only [hq] at h; simp at h
  | some V =>
    rw [hq] at h
    refine ⟨V, rfl, ?_⟩
    by_cases h0 : s.totalSupply = 0
    · simp only [if_pos h0] at h
      cases ha : addU s.totalSupply amount with
      | error e => simp only [ha] at h; simp at h
      | ok ts1 =>
        simp only [ha] at h
        cases hb2 : addU ((ledgerGet s.ledger sender).getD 0) amount with
        | error e => simp only [hb2] at h; simp at h
        | ok b1 =>
          simp only [hb2] at h
          simp [checked_div, applyWrites, applyWrite] at h
          obtain ⟨hts1, _⟩ := addU_ok ha
          obtain ⟨hb1, _⟩ := addU_ok hb2
          subst hts1 hb1
          simp [pricedShares, h0, ← h.1]
    · simp only [if_neg h0] at h
      cases hm2 : checked_mul amount s.totalSupply with
      | error e => simp only [hm2] at h; simp at h
      | ok m2 =>
        simp only [hm2] at h
        cases hd2 : checked_div m2 V with
        | error e => simp only [hd2] at h; simp at h
        | ok shares =>
          simp only [hd2] at h
          cases ha : addU s.totalSupply shares with
          | error e => simp only [ha] at h; simp at h
          | ok ts1 =>
            simp only [ha] at h
            cases hb2 : addU ((ledgerGet s.ledger sender).getD 0) shares with
            | error e => simp only [hb2] at h; simp at h
            | ok b1 =>
              simp only [hb2] at h
              simp [checked_div, applyWrites, applyWrite] at h
              obtain ⟨hmv, _⟩ := checked_mul_ok hm2
              obtain ⟨hdv, _⟩ := checked_div_ok hd2
              obtain ⟨hts1, _⟩ := addU_ok ha
              obtain ⟨hb1, _⟩ := addU_ok hb2
              subst hts1 hb1 hmv hdv
              simp [pricedShares, h0, ← h.1]

theorem ix_withdraw_inv (cfg : Config) (sv : IndexVault.Swapvar) (env : IndexVault.Env)
    (s : VaultState) (sender : String) (share : Nat) (s' : VaultState) (msgs : List Instr)
    (h : IndexVault.execute_withdraw cfg sv env s sender share = .ok (s', msgs)) :
    ∃ b1 b2 c1 c2, env.recToken1Bal = some b1 ∧ env.recToken2Bal = some b2 ∧
      env.conv1 b1 = some c1 ∧ env.conv2 b2 = some c2 ∧ s.totalSupply ≠ 0 ∧
      share ≤ s.totalSupply ∧ share ≤ (ledgerGet s.ledger sender).getD 0 ∧
      s' = ⟨s.totalSupply - share,
            ledgerSet s.ledger sender ((ledgerGet s.ledger sender).getD 0 - share)⟩ ∧
      msgs = [.increaseAllowance sv.rec_token_1 sv.lp_pool_1 b1,
              .increaseAllowance sv.rec_token_2 sv.lp_pool_2 b2,
              .swap sv.lp_pool_1 .token1 b1 0,
              .swap sv.lp_pool_2 .token2 b2 0,
              .transfer cfg.token sender (share * (c1 + c2) / s.totalSupply)] := by
  unfold IndexVault.execute_withdraw IndexVault.execute_withdraw_raw at h
  cases hq1 : env.recToken1Bal with
  | none => simp only [hq1] at h; simp at h
  | some b1 =>
    simp only [hq1] at h
    cases hq2 : env.recToken2Bal with
    | none => simp only [hq2] at h; simp at h
    | some b2 =>
      simp only [hq2] at h
      cases hc1 : env.conv1 b1 with
      | none => simp only [hc1] at h; simp at h
      | some c1 =>
        simp only [hc1] at h
        cases hc2 : env.conv2 b2 with
        | none => simp only [hc2] at h; simp at h
        | some c2 =>
          simp only [hc2] at h
          refine ⟨b1, b2, c1, c2, rfl, rfl, hc1, hc2, ?_⟩
          cases hadd : addU c1 c2 with
          | error e => simp only [hadd] at h; simp at h
          | ok token_bal =>
            simp only [hadd] at h
            cases hm2 : checked_mul share token_bal with
            | error e => simp only [hm2] at h; simp at h
            | ok m2 =>
              simp only [hm2] at h
              cases hd2 : checked_div m2 s.totalSupply with
              | error e => simp only [hd2] at h; simp at h
              | ok amount =>
                simp only [hd2] at h
                cases hsub1 : subU s.totalSupply share with
                | error e => simp only [hsub1] at h; simp at h
                | ok ts1 =>
                  simp only [hsub1] at h
                  cases hsub2 : subU ((ledgerGet s.ledger sender).getD 0) share with
                  | error e => simp only [hsub2] at h; simp at h
                  | ok bal1 =>
                    simp only [hsub2] at h
                    simp only [applyWrites, applyWrite, List.foldl,
                      Except.ok.injEq, Prod.mk.injEq] at h
                    obtain ⟨haddv, _⟩ := addU_ok hadd
                    obtain ⟨hmv, _⟩ := checked_mul_ok hm2
                    obtain ⟨hdv, hne⟩ := checked_div_ok hd2
                    obtain ⟨hts1, hle1⟩ := subU_ok hsub1
                    obtain ⟨hb1, hle2⟩ := subU_ok hsub2
                    obtain ⟨hs', hmsg⟩ := h
                    subst hts1 hb1 hmv hdv haddv
                    exact ⟨hne, hle1, hle2, hs'.symm, hmsg.symm⟩

theorem checked_mul_err {a b : Nat} {e : VaultError} (h : checked_mul a b = .error e) :
    e = .overflow := by
  unfold checked_mul at h
  split at h
  · cases h
  · exact ((Except.error.injEq _ _).mp h).symm

theorem checked_div_err {a b : Nat} {e : VaultError} (h : checked_div a b = .error e) :
    e = .divideByZero := by
  unfold checked_div at h
  split at h
  · exact ((Except.error.injEq _ _).mp h).symm
  · cases h

theorem addU_err {a b : Nat} {e : VaultError} (h : addU a b = .error e) :
    e = .panicOverflow := by
  unfold addU at h
  split at h
  · cases h
  · exact ((Except.error.injEq _ _).mp h).symm

theorem subU_err {a b : Nat} {e : VaultError} (h : subU a b = .error e) :
    e = .panicUnderflow := by
  unfold subU at h
  split at h
  · cases h
  · exact ((Except.error.injEq _ _).mp h).symm

theorem cw_deposit_div_zero (cfg : Config) (env : CwVault.Env) (s : VaultState)
    (sender : String) (amount : Nat)
    (hq : env.tokenBalance = some 0)
    (h0 : s.totalSupply ≠ 0)
    (hmul : amount * s.totalSupply < U128LIMIT) :
    CwVault.execute_deposit cfg env s sender amount = .error .divideByZero := by
  unfold CwVault.execute_deposit CwVault.execute_deposit_raw
  rw [hq]
  simp [h0, checked_mul, hmul, checked_div]

theorem ix_deposit_div_zero (cfg : Config) (sv : IndexVault.Swapvar) (env : IndexVault.Env)
    (s : VaultState) (sender : String) (amount : Nat)
    (hq : env.tokenBalance = some 0)
    (h0 : s.totalSupply ≠ 0)
    (hmul : amount * s.totalSupply < U128LIMIT) :
    IndexVault.execute_deposit cfg sv env s sender amount = .error .divideByZero := by
  unfold IndexVault.execute_deposit IndexVault.execute_deposit_raw
  rw [hq]
  simp [h0, checked_mul, hmul, checked_div]

theorem cw_withdraw_div_zero (cfg : Config) (env : CwVault.Env) (s : VaultState)
    (sender : String) (share V : Nat)
    (hq : env.tokenBalance = some V)
    (h0 : s.totalSupply = 0)
    (hmul : share * V < U128LIMIT) :
    CwVault.execute_withdraw cfg env s sender share = .error .divideByZero := by
  unfold CwVault.execute_withdraw CwVault.execute_withdraw_raw
  rw [hq]
  simp [checked_mul, hmul, checked_div, h0]

theorem ix_withdraw_div_zero (cfg : Config) (sv : IndexVault.Swapvar) (env : IndexVault.Env)
    (s : VaultState) (sender : String) (share b1 b2 c1 c2 : Nat)
    (hq1 : env.recToken1Bal = some b1) (hq2 : env.recToken2Bal = some b2)
    (hc1 : env.conv1 b1 = some c1) (hc2 : env.conv2 b2 = some c2)
    (hadd : c1 + c2 < U128LIMIT)
    (h0 : s.totalSupply = 0)
    (hmul : share * (c1 + c2) < U128LIMIT) :
    IndexVault.execute_withdraw cfg sv env s sender share = .error .divideByZero := by
  unfold IndexVault.execute_withdraw IndexVault.execute_withdraw_raw
  simp only [hq1, hq2, hc1, hc2]
  simp [addU, hadd, checked_mul, hmul, checked_div, h0]

theorem cw_withdraw_insufficient (cfg : Config) (env : CwVault.Env) (s : VaultState)
    (sender : String) (share : Nat)
    (hlt : (ledgerGet s.ledger sender).getD 0 < share) :
    ∃ e, CwVault.execute_withdraw cfg env s sender share = .error e ∧
      e ≠ .insufficientShares := by
  unfold CwVault.execute_withdraw CwVault.execute_withdraw_raw
  cases hq : env.tokenBalance with
  | none => exact ⟨.queryError, by simp, by decide⟩
  | some V =>
    cases hm2 : checked_mul share V with
    | error e =>
      rw [checked_mul_err hm2] at hm2
      exact ⟨.overflow, by simp [hm2], by decide⟩
    | ok m2 =>
      cases hd2 : checked_div m2 s.totalSupply with
      | error e =>
        rw [checked_div_err hd2] at hd2
        exact ⟨.divideByZero, by simp [hm2, hd2], by decide⟩
      | ok amount =>
        cases hsub1 : subU s.totalSupply share with
        | error e =>
          rw [subU_err hsub1] at hsub1
          exact ⟨.panicUnderflow, by simp [hm2, hd2, hsub1], by decide⟩
        | ok ts1 =>
          have hsub2 : subU ((ledgerGet s.ledger sender).getD 0) share =
              .error .panicUnderflow := by
            unfold subU
            rw [if_neg (by omega)]
          exact ⟨.panicUnderflow, by simp [hm2, hd2, hsub1, hsub2], by decide⟩

theorem ix_withdraw_insufficient (cfg : Config) (sv : IndexVault.Swapvar)
    (env : IndexVault.Env) (s : VaultState) (sender : String) (share : Nat)
    (hlt : (ledgerGet s.ledger sender).getD 0 < share) :
    ∃ e, IndexVault.execute_withdraw cfg sv env s sender share = .error e ∧
      e ≠ .insufficientShares := by
  unfold IndexVault.execute_withdraw IndexVault.execute_withdraw_raw
  cases hq1 : env.recToken1Bal with
  | none => exact ⟨.queryError, by simp, by decide⟩
  | some b1 =>
    cases hq2 : env.recToken2Bal with
    | none => exact ⟨.queryError, by simp [hq2], by decide⟩
    | some b2 =>
      cases hc1 : env.conv1 b1 with
      | none => exact ⟨.queryError, by simp [hq2, hc1], by decide⟩
      | some c1 =>
        cases hc2 : env.conv2 b2 with
        | none => exact ⟨.queryError, by simp [hq2, hc1, hc2], by decide⟩
        | some c2 =>
          cases hadd : addU c1 c2 with
          | error e =>
            rw [addU_err hadd] at hadd
            exact ⟨.panicOverflow, by simp [hq2, hc1, hc2, hadd], by decide⟩
          | ok token_bal =>
            cases hm2 : checked_mul share token_bal with
            | error e =>
              rw [checked_mul_err hm2] at hm2
              exact ⟨.overflow, by simp [hq2, hc1, hc2, hadd, hm2], by decide⟩
            | ok m2 =>
              cases hd2 : checked_div m2 s.totalSupply with
              | error e =>
                rw [checked_div_err hd2] at hd2
                exact ⟨.divideByZero, by simp [hq2, hc1, hc2, hadd, hm2, hd2], by decide⟩
              | ok amount =>
                cases hsub1 : subU s.totalSupply share with
                | error e =>
                  rw [subU_err hsub1] at hsub1
                  exact ⟨.panicUnderflow,
                    by simp [hq2, hc1, hc2, hadd, hm2, hd2, hsub1], by decide⟩
                | ok ts1 =>
                  have hsub2 : subU ((ledgerGet s.ledger sender).getD 0) share =
                      .error .panicUnderflow := by
                    unfold subU
                    rw [if_neg (by omega)]
                  exact ⟨.panicUnderflow,
                    by simp [hq2, hc1, hc2, hadd, hm2, hd2, hsub1, hsub2], by decide⟩

theorem cw_withdraw_commit_of_error (cfg : Config) (env : CwVault.Env) (s : VaultState)
    (sender : String) (share : Nat) (e : VaultError)
    (h : CwVault.execute_withdraw cfg env s sender share = .error e) :
    commit s (CwVault.execute_withdraw_raw cfg env s sender share) = (s, []) := by
  unfold CwVault.execute_withdraw at h
  rcases hraw : CwVault.execute_withdraw_raw cfg env s sender share with ⟨res, ws⟩
  rw [hraw] at h
  cases res with
  | ok m => simp at h
  | error e2 => simp [commit]

theorem cw_deposit_raw_atomic (cfg : Config) (env : CwVault.Env) (s : VaultState)
    (sender : String) (amount : Nat) :
    atomicOutcome s sender (CwVault.execute_deposit_raw cfg env s sender amount) := by
  unfold atomicOutcome CwVault.execute_deposit_raw
  cases hq : env.tokenBalance with
  | none => exact .inr ⟨_, _, rfl, rfl⟩
  | some V =>
    by_cases h0 : s.totalSupply = 0
    · simp only [if_pos h0]
      cases ha : addU s.totalSupply amount with
      | error e => simp only [ha]; exact .inr ⟨_, _, rfl, rfl⟩
      | ok ts1 =>
        simp only [ha]
        cases hb2 : addU ((ledgerGet s.ledger sender).getD 0) amount with
        | error e => simp only [hb2]; exact .inr ⟨_, _, rfl, rfl⟩
        | ok b1 => simp only [hb2]; exact .inl ⟨_, ts1, b1, rfl, by simp, rfl⟩
    · simp only [if_neg h0]
      cases hm2 : checked_mul amount s.totalSupply with
      | error e => simp only [hm2]; exact .inr ⟨_, _, rfl, rfl⟩
      | ok m2 =>
        simp only [hm2]
        cases hd2 : checked_div m2 V with
        | error e => simp only [hd2]; exact .inr ⟨_, _, rfl, rfl⟩
        | ok shares =>
          simp only [hd2]
          cases ha : addU s.totalSupply shares with
          | error e => simp only [ha]; exact .inr ⟨_, _, rfl, rfl⟩
          | ok ts1 =>
            simp only [ha]
            cases hb2 : addU ((ledgerGet s.ledger sender).getD 0) shares with
            | error e => simp only [hb2]; exact .inr ⟨_, _, rfl, rfl⟩
            | ok b1 => simp only [hb2]; exact .inl ⟨_, ts1, b1, rfl, by simp, rfl⟩

theorem cw_withdraw_raw_atomic (cfg : Config) (env : CwVault.Env) (s : VaultState)
    (sender : String) (share : Nat) :
    atomicOutcome s sender (CwVault.execute_withdraw_raw cfg env s sender share) := by
  unfold atomicOutcome CwVault.execute_withdraw_raw
  cases hq : env.tokenBalance with
  | none => exact .inr ⟨_, _, rfl, rfl⟩
  | some V =>
    cases hm2 : checked_mul share V with
    | error e => simp only [hm2]; exact .inr ⟨_, _, rfl, rfl⟩
    | ok m2 =>
      simp only [hm2]
      cases hd2 : checked_div m2 s.totalSupply with
      | error e => simp only [hd2]; exact .inr ⟨_, _, rfl, rfl⟩
      | ok amount =>
        simp only [hd2]
        cases hsub1 : subU s.totalSupply share with
        | error e => simp only [hsub1]; exact .inr ⟨_, _, rfl, rfl⟩
        | ok ts1 =>
          simp only [hsub1]
          cases hsub2 : subU ((ledgerGet s.ledger sender).getD 0) share with
          | error e => simp only [hsub2]; exact .inr ⟨_, _, rfl, rfl⟩
          | ok b1 => simp only [hsub2]; exact .inl ⟨_, ts1, b1, rfl, by simp, rfl⟩

theorem ix_deposit_raw_atomic (cfg : Config) (sv : IndexVault.Swapvar)
    (env : IndexVault.Env) (s : VaultState) (sender : String) (amount : Nat) :
    atomicOutcome s sender (IndexVault.execute_deposit_raw cfg sv env s sender amount) := by
  unfold atomicOutcome IndexVault.execute_deposit_raw
  cases hq : env.tokenBalance with
  | none => exact .inr ⟨_, _, rfl, rfl⟩
  | some V =>
    by_cases h0 : s.totalSupply = 0
    · simp only [if_pos h0]
      cases ha : addU s.totalSupply amount with
      | error e => simp only [ha]; exact .inr ⟨_, _, rfl, rfl⟩
      | ok ts1 =>
        simp only [ha]
        cases hb2 : addU ((ledgerGet s.ledger sender).getD 0) amount with
        | error e => simp only [hb2]; exact .inr ⟨_, _, rfl, rfl⟩
        | ok b1 =>
          simp only [hb2]
          simp only [checked_div, if_neg (by decide : ¬ (2 : Nat) = 0)]
          exact .inl ⟨_, ts1, b1, rfl, by simp, rfl⟩
    · simp only [if_neg h0]
      cases hm2 : checked_mul amount s.totalSupply with
      | error e => simp only [hm2]; exact .inr ⟨_, _, rfl, rfl⟩
      | ok m2 =>
        simp only [hm2]
        cases hd2 : checked_div m2 V with
        | error e => simp only [hd2]; exact .inr ⟨_, _, rfl, rfl⟩
        | ok shares =>
          simp only [hd2]
          cases ha : addU s.totalSupply shares with
          | error e => simp only [ha]; exact .inr ⟨_, _, rfl, rfl⟩
          | ok ts1 =>
            simp only [ha]
            cases hb2 : addU ((ledgerGet s.ledger sender).getD 0) shares with
            | error e => simp only [hb2]; exact .inr ⟨_, _, rfl, rfl⟩
            | ok b1 =>
              simp only [hb2]
              simp only [checked_div, if_neg (by decide : ¬ (2 : Nat) = 0)]
              exact .inl ⟨_, ts1, b1, rfl, by simp, rfl⟩

theorem ix_withdraw_raw_atomic (cfg : Config) (sv : IndexVault.Swapvar)
    (env : IndexVault.Env) (s : VaultState) (sender : String) (share : Nat) :
    atomicOutcome s sender (IndexVault.execute_withdraw_raw cfg sv env s sender share) := by
  unfold atomicOutcome IndexVault.execute_withdraw_raw
  cases hq1 : env.recToken1Bal with
  | none => exact .inr ⟨_, _, rfl, rfl⟩
  | some b1 =>
    cases hq2 : env.recToken2Bal with
    | none => simp only [hq2]; exact .inr ⟨_, _, rfl, rfl⟩
    | some b2 =>
      simp only [hq2]
      cases hc1 : env.conv1 b1 with
      | none => simp only [hc1]; exact .inr ⟨_, _, rfl, rfl⟩
      | some c1 =>
        simp only [hc1]
        cases hc2 : env.conv2 b2 with
        | none => simp only [hc2]; exact .inr ⟨_, _, rfl, rfl⟩
        | some c2 =>
          simp only [hc2]
          cases hadd : addU c1 c2 with
          | error e => simp only [hadd]; exact .inr ⟨_, _, rfl, rfl⟩
          | ok token_bal =>
            simp only [hadd]
            cases hm2 : checked_mul share token_bal with
            | error e => simp only [hm2]; exact .inr ⟨_, _, rfl, rfl⟩
            | ok m2 =>
              simp only [hm2]
              cases hd2 : checked_div m2 s.totalSupply with
              | error e => simp only [hd2]; exact .inr ⟨_, _, rfl, rfl⟩
              | ok amount =>
                simp only [hd2]
                cases hsub1 : subU s.totalSupply share with
                | error e => simp only [hsub1]; exact .inr ⟨_, _, rfl, rfl⟩
                | ok ts1 =>
                  simp only [hsub1]
                  cases hsub2 : subU ((ledgerGet s.ledger sender).getD 0) share with
                  | error e => simp only [hsub2]; exact .inr ⟨_, _, rfl, rfl⟩
                  | ok bal1 => simp only [hsub2]; exact .inl ⟨_, ts1, bal1, rfl, by simp, rfl⟩

theorem ix_withdraw_commit_of_error (cfg : Config) (sv : IndexVault.Swapvar)
    (env : IndexVault.Env) (s : VaultState) (sender : String) (share : Nat) (e : VaultError)
    (h : IndexVault.execute_withdraw cfg sv env s sender share = .error e) :
    commit s (IndexVault.execute_withdraw_raw cfg sv env s sender share) = (s, []) := by
  unfold IndexVault.execute_withdraw at h
  rcases hraw : IndexVault.execute_withdraw_raw cfg sv env s sender share with ⟨res, ws⟩
  rw [hraw] at h
  cases res with
  | ok m => simp at h
  | error e2 => simp [commit]

theorem inv_preserved_deposit (cfg : Config) (env : CwVault.Env) (s : VaultState)
    (sender : String) (amount : Nat) (s1 : VaultState) (msgs : List Instr)
    (h : CwVault.execute_deposit cfg env s sender amount = .ok (s1, msgs))
    (hinv : s.totalSupply = sumLedger s.ledger) :
    s1.totalSupply = sumLedger s1.ledger := by
  obtain ⟨V, _, hs1, _⟩ := cw_deposit_inv cfg env s sender amount s1 msgs h
  subst hs1
  have hsum := sumLedger_ledgerSet s.ledger sender
      ((ledgerGet s.ledger sender).getD 0 + pricedShares s.totalSupply V amount)
  dsimp only
  omega

theorem inv_preserved_withdraw (cfg : Config) (env : CwVault.Env) (s : VaultState)
    (sender : String) (share : Nat) (s1 : VaultState) (msgs : List Instr)
    (h : CwVault.execute_withdraw cfg env s sender share = .ok (s1, msgs))
    (hinv : s.totalSupply = sumLedger s.ledger) :
    s1.totalSupply = sumLedger s1.ledger := by
  obtain ⟨V, _, _, hle1, hle2, hs1, _⟩ := cw_withdraw_inv cfg env s sender share s1 msgs h
  subst hs1
  have hsum := sumLedger_ledgerSet s.ledger sender
      ((ledgerGet s.ledger sender).getD 0 - share)
  dsimp only
  omega

theorem execOps_preserves (cfg : Config) (ops : List CwVault.Op) :
    ∀ s s1 : VaultState, s.totalSupply = sumLedger s.ledger →
      CwVault.execOps cfg s ops = .ok s1 → s1.totalSupply = sumLedger s1.ledger := by
  induction ops with
  | nil =>
    intro s s1 hinv h
    simp only [CwVault.execOps, Except.ok.injEq] at h
    subst h
    exact hinv
  | cons op rest ih =>
    intro s s1 hinv h
    unfold CwVault.execOps at h
    cases hop : CwVault.execOp cfg s op with
    | error e => simp only [hop] at h; simp at h
    | ok p =>
      rcases p with ⟨s2, msgs⟩
      simp only [hop] at h
      refine ih s2 s1 ?_ h
      cases op with
      | deposit env sender amount =>
        simp only [CwVault.execOp] at hop
        exact inv_preserved_deposit cfg env s sender amount s2 msgs hop hinv
      | withdraw env sender share =>
        simp only [CwVault.execOp] at hop
        exact inv_preserved_withdraw cfg env s sender share s2 msgs hop hinv

theorem roundtrip_bound (S V A : Nat) (hA : 0 < A)
    (hSV : S ≠ 0 → V ≠ 0) (hZ : S = 0 → V = 0) :
    pricedShares S V A * (V + A) / (S + pricedShares S V A) ≤ A := by
  by_cases h0 : S = 0
  · have hV0 : V = 0 := hZ h0
    subst h0 hV0
    have hps : pricedShares 0 0 A = A := by simp [pricedShares]
    rw [hps, Nat.zero_add, Nat.mul_div_cancel _ hA]
  · have hV : V ≠ 0 := hSV h0
    have hsh : pricedShares S V A = A * S / V := by simp [pricedShares, h0]
    have hshv : pricedShares S V A * V ≤ A * S := by
      rw [hsh]; exact Nat.div_mul_le_self (A * S) V
    have key : pricedShares S V A * (V + A) ≤ A * (S + pricedShares S V A) := by
      have h1 : pricedShares S V A * (V + A) =
          pricedShares S V A * V + pricedShares S V A * A := by ring
      have h2 : A * (S + pricedShares S V A) = A * S + pricedShares S V A * A := by ring
      omega
    have hpos : 0 < S + pricedShares S V A := by omega
    calc pricedShares S V A * (V + A) / (S + pricedShares S V A)
        ≤ A * (S + pricedShares S V A) / (S + pricedShares S V A) :=
          Nat.div_le_div_right key
      _ = A := Nat.mul_div_cancel _ hpos

/-- C1: for every sequence of successful deposit and withdraw operations
starting from instantiation (`TotalSupply = 0`, empty ledger), after each
operation the total supply equals the sum of all ledger balances — each
intermediate state is the final state of the corresponding prefix of the
operation sequence. -/
theorem claim1_supply_eq_ledger_sum (cfg : Config) (ops : List CwVault.Op) (s1 : VaultState)
    (h : CwVault.execOps cfg instantiateState ops = .ok s1) :
    s1.totalSupply = sumLedger s1.ledger :=
  execOps_preserves cfg ops instantiateState s1 rfl h

theorem claim1_supply_eq_ledger_sum_witness :
    CwVault.execOps ⟨"token", "owner"⟩ instantiateState
        [.deposit ⟨"vault", some 0⟩ "alice" 100,
         .deposit ⟨"vault", some 100⟩ "bob" 50,
         .withdraw ⟨"vault", some 150⟩ "alice" 100] = .ok ⟨50, [("alice", 0), ("bob", 50)]⟩
    ∧ (VaultState.mk 50 [("alice", 0), ("bob", 50)]).totalSupply =
        sumLedger (VaultState.mk 50 [("alice", 0), ("bob", 50)]).ledger :=
  ⟨by rfl,
   claim1_supply_eq_ledger_sum ⟨"token", "owner"⟩
     [.deposit ⟨"vault", some 0⟩ "alice" 100,
      .deposit ⟨"vault", some 100⟩ "bob" 50,
      .withdraw ⟨"vault", some 150⟩ "alice" 100]
     ⟨50, [("alice", 0), ("bob", 50)]⟩ (by rfl)⟩

/-- C4, counterexample: a withdraw of 7 shares by a holder with balance 5 (and
supply 10, vault balance 10) fails with the underflow panic of the unchecked
`-=` subtraction, not with the `InsufficientShares` error the claim names. -/
theorem claim4_insufficient_shares_cex :
    CwVault.execute_withdraw ⟨"token", "owner"⟩ ⟨"vault", some 10⟩
        ⟨10, [("alice", 5), ("bob", 5)]⟩ "alice" 7 = .error .panicUnderflow ∧
      VaultError.panicUnderflow ≠ VaultError.insufficientShares :=
  ⟨by rfl, by decide⟩

/-- C4, amended: a withdraw of more shares than the holder holds always fails —
with an arithmetic error (the underflow panic of the unchecked `-=`, or an
earlier query/overflow/divide-by-zero error), never with `InsufficientShares` —
and the committed state is the pre-state with no instruction emitted. -/
theorem claim4_insufficient_shares_amended (cfg : Config) (sv : IndexVault.Swapvar)
    (envC : CwVault.Env) (envI : IndexVault.Env) (s : VaultState) (sender : String)
    (share : Nat)
    (hlt : (ledgerGet s.ledger sender).getD 0 < share) :
    (∃ e, CwVault.execute_withdraw cfg envC s sender share = .error e ∧
       e ≠ .insufficientShares ∧
       commit s (CwVault.execute_withdraw_raw cfg envC s sender share) = (s, []))
    ∧ (∃ e, IndexVault.execute_withdraw cfg sv envI s sender share = .error e ∧
       e ≠ .insufficientShares ∧
       commit s (IndexVault.execute_withdraw_raw cfg sv envI s sender share) = (s, [])) := by
  obtain ⟨e1, he1, hne1⟩ := cw_withdraw_insufficient cfg envC s sender share hlt
  obtain ⟨e2, he2, hne2⟩ := ix_withdraw_insufficient cfg sv envI s sender share hlt
  exact ⟨⟨e1, he1, hne1, cw_withdraw_commit_of_error cfg envC s sender share e1 he1⟩,
         ⟨e2, he2, hne2, ix_withdraw_commit_of_error cfg sv envI s sender share e2 he2⟩⟩

theorem claim4_insufficient_shares_amended_witness :
    (∃ e, CwVault.execute_withdraw ⟨"token", "owner"⟩ ⟨"vault", some 10⟩
        ⟨10, [("alice", 5)]⟩ "alice" 7 = .error e ∧
       e ≠ .insufficientShares ∧
       commit ⟨10, [("alice", 5)]⟩ (CwVault.execute_withdraw_raw ⟨"token", "owner"⟩
         ⟨"vault", some 10⟩ ⟨10, [("alice", 5)]⟩ "alice" 7) = (⟨10, [("alice", 5)]⟩, []))
    ∧ (∃ e, IndexVault.execute_withdraw ⟨"token", "owner"⟩ ⟨"lp1", "rec1", "lp2", "rec2"⟩
        ⟨"vault", some 0, some 1, some 1, (fun n => some n), (fun n => some n)⟩
        ⟨10, [("alice", 5)]⟩ "alice" 7 = .error e ∧
       e ≠ .insufficientShares ∧
       commit ⟨10, [("alice", 5)]⟩ (IndexVault.execute_withdraw_raw ⟨"token", "owner"⟩
         ⟨"lp1", "rec1", "lp2", "rec2"⟩
         ⟨"vault", some 0, some 1, some 1, (fun n => some n), (fun n => some n)⟩
         ⟨10, [("alice", 5)]⟩ "alice" 7) = (⟨10, [("alice", 5)]⟩, [])) :=
  claim4_insufficient_shares_amended ⟨"token", "owner"⟩ ⟨"lp1", "rec1", "lp2", "rec2"⟩
    ⟨"vault", some 10⟩ ⟨"vault", some 0, some 1, some 1, (fun n => some n), (fun n => some n)⟩
    ⟨10, [("alice", 5)]⟩ "alice" 7 (by decide)

/-- C5, counterexample: a deposit of amount 0 on the freshly instantiated vault
is not rejected — it succeeds, writes the (unchanged) zero values back to
storage, and still emits a `TransferFrom` instruction of 0, contradicting the
claim that a zero amount is rejected before any mutation and without emitting
any instruction. -/
theorem claim5_zero_amount_cex :
    CwVault.execute_deposit ⟨"token", "owner"⟩ ⟨"vault", some 0⟩ instantiateState "alice" 0 =
      .ok (⟨0, [("alice", 0)]⟩, [.transferFrom "token" "alice" "vault" 0]) := by rfl

/-- C5, amended: neither entry point validates the amount against zero.  A
deposit of 0 succeeds whenever the balance query does (and the supply is zero
or the vault balance nonzero), minting 0 shares and emitting a `TransferFrom`
of 0; a withdraw of 0 succeeds whenever the supply is nonzero, emitting a
`Transfer` of 0; a withdraw of 0 at supply 0 fails — but with a
divide-by-zero error, not a validation error. -/
theorem claim5_zero_amount_amended (cfg : Config) (env : CwVault.Env) (s : VaultState)
    (sender : String) (V : Nat)
    (hq : env.tokenBalance = some V)
    (hts : s.totalSupply < U128LIMIT)
    (hbal : (ledgerGet s.ledger sender).getD 0 < U128LIMIT) :
    ((s.totalSupply = 0 ∨ V ≠ 0) →
       CwVault.execute_deposit cfg env s sender 0 =
         .ok (⟨s.totalSupply, ledgerSet s.ledger sender ((ledgerGet s.ledger sender).getD 0)⟩,
              [.transferFrom cfg.token sender env.contractAddr 0]))
    ∧ (s.totalSupply ≠ 0 →
       CwVault.execute_withdraw cfg env s sender 0 =
         .ok (⟨s.totalSupply, ledgerSet s.ledger sender ((ledgerGet s.ledger sender).getD 0)⟩,
              [.transfer cfg.token sender 0]))
    ∧ (s.totalSupply = 0 →
       CwVault.execute_withdraw cfg env s sender 0 = .error .divideByZero) := by
  have hps : pricedShares s.totalSupply V 0 = 0 := by simp [pricedShares]
  have hmul0 : (0 : Nat) * s.totalSupply < U128LIMIT := by
    simp only [Nat.zero_mul]
    exact Nat.pos_pow_of_pos 128 (by decide)
  have hmulV : (0 : Nat) * V < U128LIMIT := by
    simp only [Nat.zero_mul]
    exact Nat.pos_pow_of_pos 128 (by decide)
  refine ⟨?_, ?_, ?_⟩
  · intro hV
    have h := cw_deposit_ok cfg env s sender 0 V hq hV hmul0
      (by rw [hps]; omega) (by rw [hps]; omega)
    rw [hps] at h
    simpa using h
  · intro h0
    have h := cw_withdraw_ok cfg env s sender 0 V hq hmulV h0
      (Nat.zero_le _) (Nat.zero_le _)
    simpa using h
  · intro h0
    exact cw_withdraw_div_zero cfg env s sender 0 V hq h0 hmulV

theorem claim5_zero_amount_amended_witness :
    CwVault.execute_deposit ⟨"token", "owner"⟩ ⟨"vault", some 7⟩ ⟨3, [("alice", 2)]⟩
        "alice" 0 =
      .ok (⟨3, [("alice", 2)]⟩, [.transferFrom "token" "alice" "vault" 0]) :=
  (claim5_zero_amount_amended ⟨"token", "owner"⟩ ⟨"vault", some 7⟩ ⟨3, [("alice", 2)]⟩
      "alice" 7 rfl (by decide) (by decide)).1 (Or.inr (by decide))

/-- C6: every execute call of both vaults is atomic: either it succeeds and its
storage writes are exactly the supply write and the single caller-balance write
(both committed), with a non-empty instruction list returned, or it fails and
the committed state is exactly the pre-state with no instruction — an
intermediate state with only one of the two writes is never observable, because
the host rolls back the writes of a failed call. -/
theorem claim6_atomic_execution (cfg : Config) (sv : IndexVault.Swapvar)
    (envC : CwVault.Env) (envI : IndexVault.Env) (s : VaultState) (sender : String)
    (x : Nat) :
    atomicOutcome s sender (CwVault.execute_deposit_raw cfg envC s sender x)
    ∧ atomicOutcome s sender (CwVault.execute_withdraw_raw cfg envC s sender x)
    ∧ atomicOutcome s sender (IndexVault.execute_deposit_raw cfg sv envI s sender x)
    ∧ atomicOutcome s sender (IndexVault.execute_withdraw_raw cfg sv envI s sender x) :=
  ⟨cw_deposit_raw_atomic cfg envC s sender x,
   cw_withdraw_raw_atomic cfg envC s sender x,
   ix_deposit_raw_atomic cfg sv envI s sender x,
   ix_withdraw_raw_atomic cfg sv envI s sender x⟩

/-- C7, counterexample: reading the balance of a holder with no ledger entry
through the public query fails with a not-found error instead of succeeding
with 0: `get_balance_of` uses `Map::load`, which errors on an absent key. -/
theorem claim7_get_balance_absent_cex :
    CwVault.get_balance_of instantiateState "alice" = .error .notFound ∧
      (Except.error .notFound : Except VaultError Nat) ≠ .ok 0 :=
  ⟨by rfl, fun h => by cases h⟩

/-- C7, amended: for a holder with no ledger entry the public `GetBalanceOf`
query fails with a not-found error, while the deposit path reads the same
absent entry as balance 0 (a bootstrap deposit of `amount` stores exactly
`0 + amount` for the holder). -/
theorem claim7_get_balance_absent_amended (s : VaultState) (holder : String)
    (habs : ledgerGet s.ledger holder = none) :
    CwVault.get_balance_of s holder = .error .notFound
    ∧ ∀ (cfg : Config) (env : CwVault.Env) (amount V : Nat),
        env.tokenBalance = some V → s.totalSupply = 0 → amount < U128LIMIT →
        CwVault.execute_deposit cfg env s holder amount =
          .ok (⟨amount, ledgerSet s.ledger holder amount⟩,
               [.transferFrom cfg.token holder env.contractAddr amount]) := by
  constructor
  · unfold CwVault.get_balance_of
    rw [habs]
  · intro cfg env amount V hq h0 hlim
    have hbal0 : (ledgerGet s.ledger holder).getD 0 = 0 := by rw [habs]; rfl
    have hps : pricedShares s.totalSupply V amount = amount := by
      simp [pricedShares, h0]
    have h := cw_deposit_ok cfg env s holder amount V hq (Or.inl h0)
      (by rw [h0]; simpa using Nat.pos_pow_of_pos 128 (by decide))
      (by rw [hps, h0]; omega)
      (by rw [hps, hbal0]; omega)
    rw [hps, hbal0, h0] at h
    simpa using h

theorem claim7_get_balance_absent_amended_witness :
    CwVault.execute_deposit ⟨"token", "owner"⟩ ⟨"vault", some 0⟩ instantiateState
        "alice" 5 =
      .ok (⟨5, [("alice", 5)]⟩, [.transferFrom "token" "alice" "vault" 5]) :=
  (claim7_get_balance_absent_amended instantiateState "alice" rfl).2
    ⟨"token", "owner"⟩ ⟨"vault", some 0⟩ 5 0 rfl rfl (by decide)

/-- C2: with the vault balance query returning `V`, every successful deposit of
`amount` (in either vault) moves the state to supply `ts + shares` and sender
balance `bal + shares` with `shares = amount` when `ts = 0` and
`shares = floor(amount * ts / V)` otherwise (floor division, never rounded up);
and when `ts > 0` while `V = 0` (and the multiplication fits in `Uint128`) the
deposit fails with the divide-by-zero arithmetic error rather than defaulting. -/
theorem claim2_deposit_share_pricing (cfg : Config) (sv : IndexVault.Swapvar)
    (envC : CwVault.Env) (envI : IndexVault.Env) (s : VaultState) (sender : String)
    (amount V : Nat)
    (hC : envC.tokenBalance = some V) (hI : envI.tokenBalance = some V) :
    (∀ s1 msgs, CwVault.execute_deposit cfg envC s sender amount = .ok (s1, msgs) →
       s1 = ⟨s.totalSupply + pricedShares s.totalSupply V amount,
             ledgerSet s.ledger sender
               ((ledgerGet s.ledger sender).getD 0 + pricedShares s.totalSupply V amount)⟩)
    ∧ (∀ s1 msgs, IndexVault.execute_deposit cfg sv envI s sender amount = .ok (s1, msgs) →
       s1 = ⟨s.totalSupply + pricedShares s.totalSupply V amount,
             ledgerSet s.ledger sender
               ((ledgerGet s.ledger sender).getD 0 + pricedShares s.totalSupply V amount)⟩)
    ∧ (s.totalSupply ≠ 0 → V = 0 → amount * s.totalSupply < U128LIMIT →
       CwVault.execute_deposit cfg envC s sender amount = .error .divideByZero ∧
       IndexVault.execute_deposit cfg sv envI s sender amount = .error .divideByZero) := by
  refine ⟨?_, ?_, ?_⟩
  · intro s1 msgs h
    obtain ⟨V0, hq0, hs1, _⟩ := cw_deposit_inv cfg envC s sender amount s1 msgs h
    rw [hC] at hq0
    injection hq0 with hV0
    subst hV0
    exact hs1
  · intro s1 msgs h
    obtain ⟨V0, hq0, hs1⟩ := ix_deposit_inv cfg sv envI s sender amount s1 msgs h
    rw [hI] at hq0
    injection hq0 with hV0
    subst hV0
    exact hs1
  · intro h0 hV0 hmul
    subst hV0
    exact ⟨cw_deposit_div_zero cfg envC s sender amount hC h0 hmul,
           ix_deposit_div_zero cfg sv envI s sender amount hI h0 hmul⟩

theorem claim2_deposit_share_pricing_witness :
    (VaultState.mk 10 [("bob", 4), ("alice", 6)]) =
      ⟨(4 : Nat) + pricedShares 4 3 5,
       ledgerSet [("bob", 4)] "alice"
         ((ledgerGet [("bob", 4)] "alice").getD 0 + pricedShares 4 3 5)⟩ :=
  (claim2_deposit_share_pricing ⟨"token", "owner"⟩ ⟨"lp1", "rec1", "lp2", "rec2"⟩
      ⟨"vault", some 3⟩ ⟨"vault", some 3, some 0, some 0, (fun n => some n), (fun n => some n)⟩
      ⟨4, [("bob", 4)]⟩ "alice" 5 3 rfl rfl).1
    ⟨10, [("bob", 4), ("alice", 6)]⟩ [.transferFrom "token" "alice" "vault" 5] (by rfl)

/-- C3: every successful withdraw of `share` redeems exactly
`floor(share * V / ts)` in the final `Transfer`, where in the single-pool vault
`V` is the queried vault balance of the underlying, and in the multi-pool vault
`V = conv1(b1) + conv2(b2)` is the sum of the pool conversions of the two
queried receipt-token balances; and at `ts = 0` both withdraws fail with the
divide-by-zero arithmetic error. -/
theorem claim3_withdraw_redeem_amount (cfg : Config) (sv : IndexVault.Swapvar)
    (envC : CwVault.Env) (envI : IndexVault.Env) (s : VaultState) (sender : String)
    (share V b1 b2 c1 c2 : Nat)
    (hC : envC.tokenBalance = some V)
    (h1 : envI.recToken1Bal = some b1) (h2 : envI.recToken2Bal = some b2)
    (hc1 : envI.conv1 b1 = some c1) (hc2 : envI.conv2 b2 = some c2) :
    (∀ s1 msgs, CwVault.execute_withdraw cfg envC s sender share = .ok (s1, msgs) →
       s.totalSupply ≠ 0 ∧
       msgs = [.transfer cfg.token sender (share * V / s.totalSupply)])
    ∧ (∀ s1 msgs, IndexVault.execute_withdraw cfg sv envI s sender share = .ok (s1, msgs) →
       s.totalSupply ≠ 0 ∧
       msgs = [.increaseAllowance sv.rec_token_1 sv.lp_pool_1 b1,
               .increaseAllowance sv.rec_token_2 sv.lp_pool_2 b2,
               .swap sv.lp_pool_1 .token1 b1 0,
               .swap sv.lp_pool_2 .token2 b2 0,
               .transfer cfg.token sender (share * (c1 + c2) / s.totalSupply)])
    ∧ (s.totalSupply = 0 → share * V < U128LIMIT →
       CwVault.execute_withdraw cfg envC s sender share = .error .divideByZero)
    ∧ (s.totalSupply = 0 → c1 + c2 < U128LIMIT → share * (c1 + c2) < U128LIMIT →
       IndexVault.execute_withdraw cfg sv envI s sender share = .error .divideByZero) := by
  refine ⟨?_, ?_, ?_, ?_⟩
  · intro s1 msgs h
    obtain ⟨V0, hq0, hne, _, _, _, hmsg⟩ := cw_withdraw_inv cfg envC s sender share s1 msgs h
    rw [hC] at hq0
    injection hq0 with hV0
    subst hV0
    exact ⟨hne, hmsg⟩
  · intro s1 msgs h
    obtain ⟨b1', b2', c1', c2', hq1, hq2, hc1', hc2', hne, _, _, _, hmsg⟩ :=
      ix_withdraw_inv cfg sv envI s sender share s1 msgs h
    rw [h1] at hq1
    injection hq1 with hb1
    subst hb1
    rw [h2] at hq2
    injection hq2 with hb2
    subst hb2
    rw [hc1] at hc1'
    injection hc1' with hcc1
    subst hcc1
    rw [hc2] at hc2'
    injection hc2' with hcc2
    subst hcc2
    exact ⟨hne, hmsg⟩
  · intro h0 hmul
    exact cw_withdraw_div_zero cfg envC s sender share V hC h0 hmul
  · intro h0 hadd hmul
    exact ix_withdraw_div_zero cfg sv envI s sender share b1 b2 c1 c2 h1 h2 hc1 hc2
      hadd h0 hmul

theorem claim3_withdraw_redeem_amount_witness :
    (10 : Nat) ≠ 0 ∧
      [Instr.transfer "token" "alice" 4] =
        [Instr.transfer "token" "alice" (4 * 10 / 10)] :=
  (claim3_withdraw_redeem_amount ⟨"token", "owner"⟩ ⟨"lp1", "rec1", "lp2", "rec2"⟩
      ⟨"vault", some 10⟩
      ⟨"vault", some 10, some 3, some 3, (fun n => some n), (fun n => some n)⟩
      ⟨10, [("alice", 5), ("bob", 5)]⟩ "alice" 4 10 3 3 3 3
      rfl rfl rfl rfl rfl).1
    ⟨6, [("alice", 1), ("bob", 5)]⟩ [.transfer "token" "alice" 4] (by rfl)

/-- C8, counterexample: with supply 0 but a nonzero pre-existing vault balance
`V = 5`, a deposit of `A = 10` mints 10 shares (the bootstrap branch ignores
`V`), and immediately withdrawing those 10 shares with the vault balance
updated to `V + A = 15` redeems 15 — strictly more than the deposited 10 —
refuting the claimed `amount_redeemed ≤ A` bound for such states. -/
theorem claim8_roundtrip_cex :
    CwVault.execute_deposit ⟨"token", "owner"⟩ ⟨"vault", some 5⟩ instantiateState
        "alice" 10 =
      .ok (⟨10, [("alice", 10)]⟩, [.transferFrom "token" "alice" "vault" 10]) ∧
    CwVault.execute_withdraw ⟨"token", "owner"⟩ ⟨"vault", some 15⟩ ⟨10, [("alice", 10)]⟩
        "alice" 10 =
      .ok (⟨0, [("alice", 0)]⟩, [.transfer "token" "alice" 15]) ∧
    ¬ (15 : Nat) ≤ 10 :=
  ⟨by rfl, by rfl, by decide⟩

/-- C8, amended: the round-trip bound holds for bootstrap-consistent states:
when `V = 0` if the supply is 0 and `V > 0` if it is not, depositing `A > 0`
and then withdrawing all minted shares with the vault balance updated only by
the deposited `A` redeems at most `A` (the shortfall coming from floor
rounding). -/
theorem claim8_roundtrip_amended (cfg : Config) (env1 env2 : CwVault.Env) (s : VaultState)
    (sender : String) (A V : Nat)
    (h1 : env1.tokenBalance = some V) (h2 : env2.tokenBalance = some (V + A))
    (hA : 0 < A)
    (hSV : s.totalSupply ≠ 0 → V ≠ 0)
    (hZ : s.totalSupply = 0 → V = 0)
    (hmul1 : A * s.totalSupply < U128LIMIT)
    (ht : s.totalSupply + pricedShares s.totalSupply V A < U128LIMIT)
    (hb : (ledgerGet s.ledger sender).getD 0 + pricedShares s.totalSupply V A < U128LIMIT)
    (hmul2 : pricedShares s.totalSupply V A * (V + A) < U128LIMIT) :
    ∃ s1 msgs1 s2 red,
      CwVault.execute_deposit cfg env1 s sender A = .ok (s1, msgs1) ∧
      CwVault.execute_withdraw cfg env2 s1 sender (pricedShares s.totalSupply V A) =
        .ok (s2, [.transfer cfg.token sender red]) ∧
      red ≤ A := by
  have hV : s.totalSupply = 0 ∨ V ≠ 0 := by
    by_cases h0 : s.totalSupply = 0
    · exact Or.inl h0
    · exact Or.inr (hSV h0)
  have hdep := cw_deposit_ok cfg env1 s sender A V h1 hV hmul1 ht hb
  have hsh0 : s.totalSupply = 0 → pricedShares s.totalSupply V A = A := fun h => by
    simp [pricedShares, h]
  have h0w : (VaultState.mk (s.totalSupply + pricedShares s.totalSupply V A)
      (ledgerSet s.ledger sender
        ((ledgerGet s.ledger sender).getD 0 + pricedShares s.totalSupply V A))).totalSupply
      ≠ 0 := by
    dsimp only
    by_cases h0 : s.totalSupply = 0
    · have := hsh0 h0
      omega
    · omega
  have hwd := cw_withdraw_ok cfg env2
      ⟨s.totalSupply + pricedShares s.totalSupply V A,
       ledgerSet s.ledger sender
         ((ledgerGet s.ledger sender).getD 0 + pricedShares s.totalSupply V A)⟩
      sender (pricedShares s.totalSupply V A) (V + A) h2 hmul2 h0w
      (by dsimp only; omega)
      (by dsimp only; rw [ledgerGet_ledgerSet_self]; simp)
  refine ⟨_, _, _, _, hdep, hwd, ?_⟩
  dsimp only
  exact roundtrip_bound s.totalSupply V A hA hSV hZ

theorem claim8_roundtrip_amended_witness :
    ∃ s1 msgs1 s2 red,
      CwVault.execute_deposit ⟨"token", "owner"⟩ ⟨"vault", some 100⟩
          ⟨100, [("alice", 100)]⟩ "alice" 50 = .ok (s1, msgs1) ∧
      CwVault.execute_withdraw ⟨"token", "owner"⟩ ⟨"vault", some 150⟩ s1 "alice"
          (pricedShares 100 100 50) = .ok (s2, [.transfer "token" "alice" red]) ∧
      red ≤ 50 :=
  claim8_roundtrip_amended ⟨"token", "owner"⟩ ⟨"vault", some 100⟩ ⟨"vault", some 150⟩
    ⟨100, [("alice", 100)]⟩ "alice" 50 100 rfl rfl (by decide) (by decide) (by decide)
    (by decide) (by decide) (by decide) (by decide)

/-- C9, counterexample: a multi-pool withdraw of 1 of 2 outstanding shares
(holding 100 of each receipt token, identity conversions) emits swaps of the
vault's entire receipt balances (100 each), not the slice proportional to this
redemption (`100 * 1 / 2 = 50`), refuting the proportional-conversion part of
the claim. -/
theorem claim9_proportional_swap_cex :
    IndexVault.execute_withdraw ⟨"token", "owner"⟩ ⟨"lp1", "rec1", "lp2", "rec2"⟩
        ⟨"vault", some 0, some 100, some 100, (fun n => some n), (fun n => some n)⟩
        ⟨2, [("alice", 2)]⟩ "alice" 1 =
      .ok (⟨1, [("alice", 1)]⟩,
           [.increaseAllowance "rec1" "lp1" 100, .increaseAllowance "rec2" "lp2" 100,
            .swap "lp1" .token1 100 0, .swap "lp2" .token2 100 0,
            .transfer "token" "alice" 100]) ∧
    (100 : Nat) ≠ 100 * 1 / 2 :=
  ⟨by rfl, by decide⟩

/-- C9, amended: every successful multi-pool withdraw emits, in order, the two
increase-allowance instructions and the two swap instructions before the final
`Transfer` of the redeemed amount — but each swap converts the vault's entire
queried receipt-token balance, not the slice proportional to this redemption. -/
theorem claim9_swap_order_amended (cfg : Config) (sv : IndexVault.Swapvar)
    (envI : IndexVault.Env) (s : VaultState) (sender : String) (share : Nat)
    (s1 : VaultState) (msgs : List Instr) (b1 b2 c1 c2 : Nat)
    (h : IndexVault.execute_withdraw cfg sv envI s sender share = .ok (s1, msgs))
    (h1 : envI.recToken1Bal = some b1) (h2 : envI.recToken2Bal = some b2)
    (hc1 : envI.conv1 b1 = some c1) (hc2 : envI.conv2 b2 = some c2) :
    msgs = [.increaseAllowance sv.rec_token_1 sv.lp_pool_1 b1,
            .increaseAllowance sv.rec_token_2 sv.lp_pool_2 b2,
            .swap sv.lp_pool_1 .token1 b1 0,
            .swap sv.lp_pool_2 .token2 b2 0,
            .transfer cfg.token sender (share * (c1 + c2) / s.totalSupply)] := by
  obtain ⟨b1', b2', c1', c2', hq1, hq2, hc1', hc2', _, _, _, _, hmsg⟩ :=
    ix_withdraw_inv cfg sv envI s sender share s1 msgs h
  rw [h1] at hq1
  injection hq1 with hb1
  subst hb1
  rw [h2] at hq2
  injection hq2 with hb2
  subst hb2
  rw [hc1] at hc1'
  injection hc1' with hcc1
  subst hcc1
  rw [hc2] at hc2'
  injection hc2' with hcc2
  subst hcc2
  exact hmsg

theorem claim9_swap_order_amended_witness :
    [Instr.increaseAllowance "rec1" "lp1" 100, .increaseAllowance "rec2" "lp2" 100,
     .swap "lp1" .token1 100 0, .swap "lp2" .token2 100 0,
     .transfer "token" "alice" 200] =
    [Instr.increaseAllowance "rec1" "lp1" 100, .increaseAllowance "rec2" "lp2" 100,
     .swap "lp1" .token1 100 0, .swap "lp2" .token2 100 0,
     .transfer "token" "alice" (2 * (100 + 100) / 2)] :=
  claim9_swap_order_amended ⟨"token", "owner"⟩ ⟨"lp1", "rec1", "lp2", "rec2"⟩
    ⟨"vault", some 0, some 100, some 100, (fun n => some n), (fun n => some n)⟩
    ⟨2, [("alice", 2)]⟩ "alice" 2 ⟨0, [("alice", 0)]⟩
    [.increaseAllowance "rec1" "lp1" 100, .increaseAllowance "rec2" "lp2" 100,
     .swap "lp1" .token1 100 0, .swap "lp2" .token2 100 0,
     .transfer "token" "alice" 200]
    100 100 100 100 (by rfl) rfl rfl rfl rfl

/-- C10 (implicit): when `0 < amount`, `0 < ts` and `amount * ts < V`, both
deposits succeed minting exactly 0 shares — the supply and the stored sender
balance are written back unchanged — while still emitting the `TransferFrom`
pulling the full `amount` from the depositor (the Index-vault additionally
emits its allowance and swap instructions for the full and half amount). -/
theorem claim10_zero_share_mint (cfg : Config) (sv : IndexVault.Swapvar)
    (envC : CwVault.Env) (envI : IndexVault.Env) (s : VaultState) (sender : String)
    (amount V : Nat)
    (hC : envC.tokenBalance = some V) (hI : envI.tokenBalance = some V)
    (hA : 0 < amount) (h0 : s.totalSupply ≠ 0)
    (hlt : amount * s.totalSupply < V) (hVlim : V < U128LIMIT)
    (htslim : s.totalSupply < U128LIMIT)
    (hballim : (ledgerGet s.ledger sender).getD 0 < U128LIMIT) :
    CwVault.execute_deposit cfg envC s sender amount =
      .ok (⟨s.totalSupply, ledgerSet s.ledger sender ((ledgerGet s.ledger sender).getD 0)⟩,
           [.transferFrom cfg.token sender envC.contractAddr amount])
    ∧ IndexVault.execute_deposit cfg sv envI s sender amount =
      .ok (⟨s.totalSupply, ledgerSet s.ledger sender ((ledgerGet s.ledger sender).getD 0)⟩,
           [.increaseAllowance cfg.token sv.lp_pool_1 amount,
            .increaseAllowance cfg.token sv.lp_pool_2 amount,
            .transferFrom cfg.token sender envI.contractAddr amount,
            .swap sv.lp_pool_1 .token1 (amount / 2) 0,
            .swap sv.lp_pool_2 .token1 (amount / 2) 0]) := by
  have hVne : V ≠ 0 := by omega
  have hps : pricedShares s.totalSupply V amount = 0 := by
    simp only [pricedShares, if_neg h0]
    exact Nat.div_eq_of_lt hlt
  have hmul : amount * s.totalSupply < U128LIMIT := Nat.lt_trans hlt hVlim
  have hd1 := cw_deposit_ok cfg envC s sender amount V hC (Or.inr hVne) hmul
    (by rw [hps]; omega) (by rw [hps]; omega)
  have hd2 := ix_deposit_ok cfg sv envI s sender amount V hI (Or.inr hVne) hmul
    (by rw [hps]; omega) (by rw [hps]; omega)
  rw [hps] at hd1 hd2
  simp only [Nat.add_zero] at hd1 hd2
  exact ⟨hd1, hd2⟩

theorem claim10_zero_share_mint_witness :
    CwVault.execute_deposit ⟨"token", "owner"⟩ ⟨"vault", some 16⟩ ⟨5, [("alice", 5)]⟩
        "alice" 3 =
      .ok (⟨5, [("alice", 5)]⟩, [.transferFrom "token" "alice" "vault" 3]) ∧
    IndexVault.execute_deposit ⟨"token", "owner"⟩ ⟨"lp1", "rec1", "lp2", "rec2"⟩
        ⟨"vault", some 16, some 0, some 0, (fun n => some n), (fun n => some n)⟩
        ⟨5, [("alice", 5)]⟩ "alice" 3 =
      .ok (⟨5, [("alice", 5)]⟩,
           [.increaseAllowance "token" "lp1" 3, .increaseAllowance "token" "lp2" 3,
            .transferFrom "token" "alice" "vault" 3,
            .swap "lp1" .token1 1 0, .swap "lp2" .token1 1 0]) :=
  claim10_zero_share_mint ⟨"token", "owner"⟩ ⟨"lp1", "rec1", "lp2", "rec2"⟩
    ⟨"vault", some 16⟩
    ⟨"vault", some 16, some 0, some 0, (fun n => some n), (fun n => some n)⟩
    ⟨5, [("alice", 5)]⟩ "alice" 3 16 rfl rfl (by decide) (by decide) (by decide)
    (by decide) (by decide) (by decide)

end XVault
